/-
Verification of the placeholder expression builder, the output resolver and
the (spec-described) graph compiler of the pipeline-authoring library.

Shallow embedding conventions:
* protobuf messages become inductive types whose constructors are the proto
  `oneof` arms actually used by the code;
* Python objects that mutate themselves become functions from the old value to
  the new value; methods that mutate nothing are pure functions, and for the
  claims about absence of mutation a state-threading variant returning the
  post-state is provided as well;
* the filesystem abstraction (`fileio`) is modelled by an explicit trace of
  storage operations plus a small file-system state on which they act.
-/
import Mathlib

namespace Tfx

/-! ## `tfx/dsl/placeholder/placeholder.py` -/

namespace placeholder

/-- `placeholder_pb2.Placeholder.Type` (the three leaf kinds used). -/
inductive PlaceholderType where
  | INPUT_ARTIFACT
  | OUTPUT_ARTIFACT
  | EXEC_PROPERTY
deriving DecidableEq, Repr

/-- `placeholder_pb2.PlaceholderExpression`: a placeholder expression tree.
The constructors are the `oneof` arms the builder code populates:
a placeholder leaf (`expression_pb.placeholder`), a literal string value
(`value.string_value`), and the five operators.  An `artifact_uri_op` whose
`split` was never set carries the proto default `""`, which is also what the
code leaves untouched when `self._split` is empty. -/
inductive PlaceholderExpression where
  | placeholder (type : PlaceholderType) (key : String)
  | value (string_value : String)
  | artifact_uri_op (expression : PlaceholderExpression) (split : String)
  | artifact_value_op (expression : PlaceholderExpression)
  | index_op (expression : PlaceholderExpression) (index : Int)
  | concat_op (expressions : List PlaceholderExpression)
  | proto_op (expression : PlaceholderExpression) (proto_field_path : String)

/-- `sub_expression_pb.HasField('operator') and
sub_expression_pb.operator.HasField('concat_op')`. -/
def PlaceholderExpression.isConcat : PlaceholderExpression → Bool
  | .concat_op _ => true
  | _ => false

mutual
/-- The operand of `_ConcatOperator.__init__`: `Union[str, 'Placeholder']`. -/
inductive ConcatOperand where
  | str (s : String)
  | ph (p : Placeholder)

/-- The `_PlaceholderOperator` subclasses, each carrying its constructor
arguments: `_ArtifactUriOperator(split)`, `_ArtifactValueOperator`,
`_IndexOperator(index)`, `_ConcatOperator(other)`,
`_ProtoOperator(proto_field_path)`. -/
inductive PlaceholderOperator where
  | artifactUri (split : String)
  | artifactValue
  | index (i : Int)
  | concat (other : ConcatOperand)
  | proto (proto_field_path : String)

/-- A `Placeholder` object: its `_type`, `_key` and `_operators` list. -/
inductive Placeholder where
  | mk (type : PlaceholderType) (key : String)
      (operators : List PlaceholderOperator)
end

def Placeholder.operators : Placeholder → List PlaceholderOperator
  | .mk _ _ ops => ops

def Placeholder.type : Placeholder → PlaceholderType
  | .mk t _ _ => t

def Placeholder.key : Placeholder → String
  | .mk _ k _ => k

/-- `input(key)`: a fresh `ArtifactPlaceholder` with type `INPUT_ARTIFACT`. -/
def input (key : String) : Placeholder :=
  .mk .INPUT_ARTIFACT key []

/-- `output(key)`: a fresh `ArtifactPlaceholder` with type `OUTPUT_ARTIFACT`. -/
def output (key : String) : Placeholder :=
  .mk .OUTPUT_ARTIFACT key []

/-- `exec_property(key)`: a fresh `ExecPropertyPlaceholder`. -/
def exec_property (key : String) : Placeholder :=
  .mk .EXEC_PROPERTY key []

/-- `Placeholder.__getitem__`: appends `_IndexOperator(key)` and returns
(the new state of) `self`. -/
def Placeholder.getItem : Placeholder → Int → Placeholder
  | .mk t k ops, i => .mk t k (ops ++ [.index i])

/-- `Placeholder.__add__`: appends `_ConcatOperator(other)` and returns
(the new state of) `self`. -/
def Placeholder.add : Placeholder → ConcatOperand → Placeholder
  | .mk t k ops, other => .mk t k (ops ++ [.concat other])

/-- `ArtifactPlaceholder.uri`: appends `_ArtifactUriOperator()` (empty split). -/
def Placeholder.uri : Placeholder → Placeholder
  | .mk t k ops => .mk t k (ops ++ [.artifactUri ""])

/-- `ArtifactPlaceholder.split_uri(split)`. -/
def Placeholder.split_uri : Placeholder → String → Placeholder
  | .mk t k ops, split => .mk t k (ops ++ [.artifactUri split])

/-- `ArtifactPlaceholder.value`: appends `_ArtifactValueOperator()`. -/
def Placeholder.valueProperty : Placeholder → Placeholder
  | .mk t k ops => .mk t k (ops ++ [.artifactValue])

/-- `ExecPropertyPlaceholder.__getattr__(field_name)`: if the operator list is
nonempty and its last element is a `_ProtoOperator`, extend that operator's
path with `'.' + field_name` (`append_field_path`); otherwise append a fresh
`_ProtoOperator(field_name)`. -/
def Placeholder.getattr : Placeholder → String → Placeholder
  | .mk t k ops, field_name =>
    match ops.getLast? with
    | some (.proto path) =>
        .mk t k (ops.dropLast ++ [.proto (path ++ "." ++ field_name)])
    | _ => .mk t k (ops ++ [.proto field_name])

/-- The tail of `_ConcatOperator.encode`: appends the operand expression to an
existing `concat_op`, otherwise builds a fresh two-operand `concat_op`. -/
def concatCombine (sub other : PlaceholderExpression) : PlaceholderExpression :=
  match sub with
  | .concat_op expressions => .concat_op (expressions ++ [other])
  | _ => .concat_op [sub, other]

mutual
/-- The loop body of `Placeholder.encode`: run each operator's `encode` over
the accumulated sub-expression, in list order. -/
def encodeOps : List PlaceholderOperator → PlaceholderExpression →
    PlaceholderExpression
  | [], e => e
  | op :: rest, e => encodeOps rest (opEncode op e)

/-- The `encode` method of each `_PlaceholderOperator` subclass, applied to the
accumulated sub-expression. -/
def opEncode : PlaceholderOperator → PlaceholderExpression →
    PlaceholderExpression
  | .artifactUri split, sub => .artifact_uri_op sub split
  | .artifactValue, sub => .artifact_value_op sub
  | .index i, sub => .index_op sub i
  | .concat other, sub => concatCombine sub (resolveOperand other)
  | .proto path, sub => .proto_op sub path

/-- The head of `_ConcatOperator.encode`: a `Placeholder` operand is encoded,
a string operand becomes a `value.string_value` expression. -/
def resolveOperand : ConcatOperand → PlaceholderExpression
  | .str s => .value s
  | .ph p => Placeholder.encode p

/-- `Placeholder.encode`: start from the leaf
(`expression_pb.placeholder.type/key`) and fold the operators over it. -/
def Placeholder.encode : Placeholder → PlaceholderExpression
  | .mk t k ops => encodeOps ops (.placeholder t k)
end

mutual
/-- State-threading variant of `encodeOps`: returns the encoded expression
together with the operator list as it stands after the call (the source never
reassigns it, which is what the frame theorem below checks). -/
def encodeOpsS : List PlaceholderOperator → PlaceholderExpression →
    PlaceholderExpression × List PlaceholderOperator
  | [], e => (e, [])
  | op :: rest, e =>
    let r1 := opEncodeS op e
    let r2 := encodeOpsS rest r1.1
    (r2.1, r1.2 :: r2.2)

/-- State-threading variant of `opEncode`. -/
def opEncodeS : PlaceholderOperator → PlaceholderExpression →
    PlaceholderExpression × PlaceholderOperator
  | .artifactUri split, sub => (.artifact_uri_op sub split, .artifactUri split)
  | .artifactValue, sub => (.artifact_value_op sub, .artifactValue)
  | .index i, sub => (.index_op sub i, .index i)
  | .concat other, sub =>
    let r := resolveOperandS other
    (concatCombine sub r.1, .concat r.2)
  | .proto path, sub => (.proto_op sub path, .proto path)

/-- State-threading variant of `resolveOperand`: encoding a `Placeholder`
operand calls that operand's own `encode`. -/
def resolveOperandS : ConcatOperand → PlaceholderExpression × ConcatOperand
  | .str s => (.value s, .str s)
  | .ph p =>
    let r := Placeholder.encodeS p
    (r.1, .ph r.2)

/-- State-threading variant of `Placeholder.encode`: returns the expression
and the placeholder as it stands after the call. -/
def Placeholder.encodeS : Placeholder → PlaceholderExpression × Placeholder
  | .mk t k ops =>
    let r := encodeOpsS ops (.placeholder t k)
    (r.1, .mk t k r.2)
end

end placeholder

/-! ## `tfx/orchestration/portable/outputs_utils.py` -/

namespace outputs_utils

/-- `os.path.join` for the arguments the code passes it: nonempty components
without trailing slashes, the second one relative. -/
def pjoin (a b : String) : String := a ++ "/" ++ b

/-- `os.path.dirname` for normalized slash-separated paths (no trailing or
repeated separators): everything before the last `/`, or `""` when the path
has no `/`. -/
def dirname (p : String) : String :=
  ⟨((p.data.reverse.dropWhile (fun c => c ≠ '/')).tail).reverse⟩

def _EXECUTION : String := "execution"

def _STATEFUL_WORKING_DIR : String := "stateful_working_dir"

def _EXECUTION_OUTPUT_FILE : String := "executor_output.pb"

def _VALUE_ARTIFACT_FILE_NAME : String := "value"

/-- The declared artifact type of an output spec
(`output_spec.artifact_spec.type`), modelled by the single aspect
`outputs_utils` branches on: whether `artifact_utils.deserialize_artifact`
yields a `ValueArtifact` instance (`isinstance(artifact, ValueArtifact)`). -/
structure ArtifactType where
  is_value_artifact : Bool
deriving DecidableEq, Repr

/-- A `types.Artifact` as produced by `generate_output_artifacts`: its type
plus the `uri` and `name` attributes the resolver assigns. -/
structure Artifact where
  artifact_type : ArtifactType
  uri : String
  name : String
deriving DecidableEq, Repr

/-- One operation of the `fileio` storage abstraction, as issued by this
module.  `createEmptyFile p` stands for `fileio.open(p, 'w')` followed by
writing the empty string (which forces creation of the file). -/
inductive FileOp where
  | makedirs (path : String)
  | createEmptyFile (path : String)
deriving DecidableEq, Repr

/-- The state of the storage abstraction: which directories and files exist. -/
structure FileState where
  dirs : List String
  files : List String
deriving DecidableEq, Repr

def FileState.applyOp : FileState → FileOp → FileState
  | fs, .makedirs p =>
    { fs with dirs := if p ∈ fs.dirs then fs.dirs else p :: fs.dirs }
  | fs, .createEmptyFile p =>
    { fs with files := if p ∈ fs.files then fs.files else p :: fs.files }

def FileState.applyOps (fs : FileState) (ops : List FileOp) : FileState :=
  ops.foldl FileState.applyOp fs

/-- The `OutputsResolver.__init__` inputs, flattened to the fields its methods
read: `pipeline_node.node_info.id`, `pipeline_node.outputs.outputs` (an
ordered key → output-spec mapping, modelled as an association list in
iteration order), `pipeline_info.id`, and the two runtime strings extracted
from `pipeline_runtime_spec`. -/
structure OutputsResolver where
  node_id : String
  node_outputs : List (String × ArtifactType)
  pipeline_id : String
  pipeline_root : String
  pipeline_run_id : String
deriving DecidableEq, Repr

/-- `self._node_dir = os.path.join(self._pipeline_root,
pipeline_node.node_info.id)`. -/
def OutputsResolver.node_dir (r : OutputsResolver) : String :=
  pjoin r.pipeline_root r.node_id

/-- `OutputsResolver.generate_output_artifacts(execution_id)`: for every
declared output key, deserializes the declared type, sets
`uri = join(node_dir, key, str(execution_id))` (appending
`_VALUE_ARTIFACT_FILE_NAME` when the artifact is a `ValueArtifact`), and sets
`name` to `'{0}:{1}:{2}:{3}:{4}'.format(pipeline_id, run_id, node_id, key, 0)`.
One artifact is appended per key (index fixed at 0). -/
def OutputsResolver.generate_output_artifacts (r : OutputsResolver)
    (execution_id : Nat) : List (String × List Artifact) :=
  r.node_outputs.map fun kv =>
    let uri0 := pjoin (pjoin r.node_dir kv.1) (toString execution_id)
    let uri := if kv.2.is_value_artifact then pjoin uri0 _VALUE_ARTIFACT_FILE_NAME
               else uri0
    (kv.1, [{ artifact_type := kv.2,
              uri := uri,
              name := r.pipeline_id ++ ":" ++ r.pipeline_run_id ++ ":" ++
                r.node_id ++ ":" ++ kv.1 ++ ":" ++ toString (0 : Nat) }])

/-- Effect-accounting variant of `generate_output_artifacts`: besides its
return value it reports the trace of storage operations the method issues and
the resolver state after the call.  The method body contains no `fileio` call
(only a `logging.debug`) and never assigns to `self`, so the trace is empty
and the resolver is returned as received. -/
def OutputsResolver.generate_output_artifactsS (r : OutputsResolver)
    (execution_id : Nat) :
    List (String × List Artifact) × List FileOp × OutputsResolver :=
  (r.generate_output_artifacts execution_id, [], r)

/-- The storage operations issued by `make_output_dirs` for one artifact:
a `ValueArtifact` gets `fileio.makedirs(os.path.dirname(uri))` followed by the
creation of an empty file at `uri`; any other artifact gets
`fileio.makedirs(uri)`. -/
def artifactMakeOps (a : Artifact) : List FileOp :=
  if a.artifact_type.is_value_artifact then
    [.makedirs (dirname a.uri), .createEmptyFile a.uri]
  else
    [.makedirs a.uri]

/-- The full storage-operation trace of `make_output_dirs(output_dict)`:
iterate the mapping and every artifact list in order. -/
def make_output_dirs_ops (output_dict : List (String × List Artifact)) :
    List FileOp :=
  (output_dict.map (fun kv => (kv.2.map artifactMakeOps).flatten)).flatten

/-- `make_output_dirs(output_dict)` as a transformation of the storage
state. -/
def make_output_dirs (output_dict : List (String × List Artifact))
    (fs : FileState) : FileState :=
  fs.applyOps (make_output_dirs_ops output_dict)

/-- `OutputsResolver.get_executor_output_uri(execution_id)`: ensures
`join(node_dir, 'execution', str(execution_id))` exists and returns the
`executor_output.pb` path inside it. -/
def OutputsResolver.get_executor_output_uri (r : OutputsResolver)
    (execution_id : Nat) (fs : FileState) : String × FileState :=
  let execution_dir := pjoin (pjoin r.node_dir _EXECUTION) (toString execution_id)
  (pjoin execution_dir _EXECUTION_OUTPUT_FILE,
   fs.applyOp (.makedirs execution_dir))

/-- `OutputsResolver.get_stateful_working_directory()`: computes
`join(node_dir, pipeline_run_id, 'stateful_working_dir')`, creates it, and
returns it.  The method takes no execution id. -/
def OutputsResolver.get_stateful_working_directory (r : OutputsResolver)
    (fs : FileState) : String × FileState :=
  let stateful_working_dir :=
    pjoin (pjoin r.node_dir r.pipeline_run_id) _STATEFUL_WORKING_DIR
  (stateful_working_dir, fs.applyOp (.makedirs stateful_working_dir))

end outputs_utils

/-! ## The graph compiler

The compiler itself (`tfx/dsl/compiler/compiler.py`) is not part of the
sources at hand — only its test is.  The definitions below are therefore
modelled from the specification (its §3 data model and §4.2 contract):
iterate authored nodes in declaration order, check that every channel binding
references a producer that already appeared and that the producer declares the
referenced output key, fail with a `CompilationError` naming the offending
node otherwise, and emit the compiled node list in input order. -/

namespace compiler

/-- Modelled from the spec: a declared input channel binding — it "names a
producer node + output key, or an external/importer source". -/
inductive ChannelBinding where
  | producer (producer_id : String) (output_key : String)
  | external (source : String)
deriving DecidableEq, Repr

/-- Modelled from the spec: the node kind tag `ordinary | importer |
resolver`. -/
inductive NodeKind where
  | ordinary
  | importer
  | resolver
deriving DecidableEq, Repr

/-- Modelled from the spec: a literal "of a supported scalar type" as an
execution-property value. -/
inductive ScalarValue where
  | intValue (i : Int)
  | stringValue (s : String)
  | boolValue (b : Bool)
deriving DecidableEq, Repr

/-- Modelled from the spec: the value bound to an execution-property name in
an authored node — "literal value or deferred runtime parameter" (§3), with a
placeholder expression also accepted by the compiler (§4.2); `unsupported`
stands for any other raw runtime object, which §4.2/§7 make a
`CompilationError`. -/
inductive ExecPropertyValue where
  | literal (v : ScalarValue)
  | runtimeParameter (name : String)
  | placeholderExpr (e : placeholder.PlaceholderExpression)
  | unsupported (description : String)

/-- Modelled from the spec: a resolved execution-property value of the IR —
"now placeholder expressions or literals, never raw runtime objects" (§3),
with runtime parameters lowered "to a typed placeholder-like deferred
value" (§4.2). -/
inductive CompiledExecPropertyValue where
  | literal (v : ScalarValue)
  | runtimeParameter (name : String)
  | placeholderExpr (e : placeholder.PlaceholderExpression)

/-- Whether an execution-property value is one of the three forms the
compiler accepts. -/
def execPropertySupported : ExecPropertyValue → Bool
  | .unsupported _ => false
  | _ => true

/-- Modelled from the spec: an authored node — unique id, kind tag, declared
input channel bindings, declared output keys, and the mapping of
execution-property name → value. -/
structure AuthoredNode where
  id : String
  kind : NodeKind
  input_bindings : List ChannelBinding
  output_keys : List String
  exec_properties : List (String × ExecPropertyValue)

/-- Modelled from the spec: the authored pipeline — pipeline-level attributes
plus the ordered node list. -/
structure AuthoredPipeline where
  name : String
  root_dir : String
  enable_cache : Bool
  beam_pipeline_args : List String
  nodes : List AuthoredNode

/-- Modelled from the spec: a `CompilationError` names the offending node id
and the specific structural violation. -/
structure CompilationError where
  node_id : String
  message : String
deriving DecidableEq, Repr

/-- Modelled from the spec: a compiled node of the IR, with the dependency
edges implied by its channel bindings and its resolved execution
properties. -/
structure CompiledNode where
  id : String
  kind : NodeKind
  upstream_nodes : List String
  exec_properties : List (String × CompiledExecPropertyValue)

/-- Modelled from the spec: the compiled pipeline — the copied pipeline-level
metadata and the ordered compiled node list. -/
structure CompiledPipeline where
  name : String
  root_dir : String
  enable_cache : Bool
  beam_pipeline_args : List String
  nodes : List CompiledNode

/-- Modelled from the spec: check one channel binding of node `nid` against
the nodes already compiled (`seen`).  An unknown producer or an output key
absent from the producer's output spec is a `CompilationError`. -/
def checkBinding (seen : List AuthoredNode) (nid : String) :
    ChannelBinding → Except CompilationError Unit
  | .external _ => .ok ()
  | .producer pid key =>
    match seen.find? (fun m => m.id == pid) with
    | none =>
      .error ⟨nid, "channel binding references undeclared producer node " ++ pid⟩
    | some m =>
      if m.output_keys.contains key then .ok ()
      else .error ⟨nid, "producer " ++ pid ++ " does not declare output key " ++ key⟩

/-- Modelled from the spec: check all bindings of one node, first failure
wins. -/
def checkBindings (seen : List AuthoredNode) (nid : String) :
    List ChannelBinding → Except CompilationError Unit
  | [] => .ok ()
  | b :: rest => do
    checkBinding seen nid b
    checkBindings seen nid rest

/-- Modelled from the spec: the upstream dependency edge a channel binding
induces (none for an external source). -/
def bindingUpstream : ChannelBinding → Option String
  | .producer pid _ => some pid
  | .external _ => none

/-- Modelled from the spec: lower one execution property of node `nid` —
literals become typed value messages, runtime parameters a typed deferred
value, placeholder expressions are kept; any other value is the
"unsupported execution-property value type" `CompilationError` of §4.2/§7. -/
def compileExecProperty (nid : String) (kv : String × ExecPropertyValue) :
    Except CompilationError (String × CompiledExecPropertyValue) :=
  match kv.2 with
  | .literal v => .ok (kv.1, .literal v)
  | .runtimeParameter name => .ok (kv.1, .runtimeParameter name)
  | .placeholderExpr e => .ok (kv.1, .placeholderExpr e)
  | .unsupported _ =>
    .error ⟨nid, "unsupported execution property value type for " ++ kv.1⟩

/-- Modelled from the spec: lower all execution properties of one node, first
failure wins. -/
def compileExecProperties (nid : String) :
    List (String × ExecPropertyValue) →
    Except CompilationError (List (String × CompiledExecPropertyValue))
  | [] => .ok []
  | kv :: rest => do
    let c ← compileExecProperty nid kv
    let crest ← compileExecProperties nid rest
    .ok (c :: crest)

/-- Modelled from the spec: compile one node — translate its bindings into
dependency edges after checking them, and lower its execution properties. -/
def compileNode (seen : List AuthoredNode) (n : AuthoredNode) :
    Except CompilationError CompiledNode := do
  checkBindings seen n.id n.input_bindings
  let eps ← compileExecProperties n.id n.exec_properties
  .ok { id := n.id, kind := n.kind,
        upstream_nodes := n.input_bindings.filterMap bindingUpstream,
        exec_properties := eps }

/-- Modelled from the spec: compile the node list in declaration order,
growing the set of already-seen nodes; any failure aborts the whole
compilation. -/
def compileNodes : List AuthoredNode → List AuthoredNode →
    Except CompilationError (List CompiledNode)
  | _, [] => .ok []
  | seen, n :: rest => do
    let cn ← compileNode seen n
    let crest ← compileNodes (seen ++ [n]) rest
    .ok (cn :: crest)

/-- Modelled from the spec: `compile(authoredPipeline) -> CompiledPipeline`,
or a `CompilationError`; on failure nothing of the IR is returned. -/
def compile (p : AuthoredPipeline) : Except CompilationError CompiledPipeline :=
  match compileNodes [] p.nodes with
  | .error e => .error e
  | .ok ns => .ok { name := p.name, root_dir := p.root_dir,
                    enable_cache := p.enable_cache,
                    beam_pipeline_args := p.beam_pipeline_args, nodes := ns }

/-- One channel binding's producer reference is satisfied by the nodes
declared so far (output keys not constrained) — the precondition the
order-preservation claim states. -/
def producerFound (seen : List AuthoredNode) : ChannelBinding → Bool
  | .producer pid _ => (seen.find? (fun m => m.id == pid)).isSome
  | .external _ => true

/-- One channel binding is fully well-formed against the nodes declared so
far: the producer is declared earlier and it declares the referenced output
key — exactly what `checkBinding` accepts. -/
def bindingOk (seen : List AuthoredNode) : ChannelBinding → Bool
  | .producer pid key =>
    match seen.find? (fun m => m.id == pid) with
    | none => false
    | some m => m.output_keys.contains key
  | .external _ => true

/-- The precondition of the order-preservation claim as the claim words it:
every producer referenced by a channel binding is declared earlier in the node
list (which in particular makes the bindings acyclic). -/
def producersDeclaredEarlier : List AuthoredNode → List AuthoredNode → Bool
  | _, [] => true
  | seen, n :: rest =>
    n.input_bindings.all (producerFound seen) &&
    producersDeclaredEarlier (seen ++ [n]) rest

/-- The full structural well-formedness the spec requires for compilation to
succeed: every producer binding references an earlier node and a declared
output key, and every execution-property value is a supported scalar literal,
a runtime parameter or a placeholder expression. -/
def nodesWellFormed : List AuthoredNode → List AuthoredNode → Bool
  | _, [] => true
  | seen, n :: rest =>
    (n.input_bindings.all (bindingOk seen) &&
     n.exec_properties.all fun kv => execPropertySupported kv.2) &&
    nodesWellFormed (seen ++ [n]) rest

end compiler

/-! ## Auxiliary lemmas: strings and decimal numerals -/

theorem string_append_cancel_left {a b c : String} (h : a ++ b = a ++ c) :
    b = c := by
  apply String.ext
  have hd := congrArg String.data h
  simp only [String.data_append] at hd
  exact List.append_cancel_left hd

theorem string_append_cancel_right {a b c : String} (h : a ++ c = b ++ c) :
    a = b := by
  apply String.ext
  have hd := congrArg String.data h
  simp only [String.data_append] at hd
  exact List.append_cancel_right hd

theorem toDigitsCore_eq_digits : ∀ (fuel n : Nat) (ds : List Char), 0 < n → n < fuel →
    Nat.toDigitsCore 10 fuel n ds =
      ((Nat.digits 10 n).map Nat.digitChar).reverse ++ ds := by
  intro fuel
  induction fuel with
  | zero => intro n ds h hlt; omega
  | succ f ih =>
    intro n ds hn hlt
    rw [Nat.toDigitsCore]
    rw [Nat.digits_def' (by norm_num : (1:Nat) < 10) hn]
    by_cases h0 : n / 10 = 0
    · simp [h0]
    · rw [if_neg h0]
      rw [ih (n / 10) _ (Nat.pos_of_ne_zero h0)
        (lt_of_lt_of_le (Nat.div_lt_self hn (by norm_num)) (by omega))]
      simp

theorem repr_eq_digits (n : Nat) (hn : 0 < n) :
    Nat.repr n = (((Nat.digits 10 n).map Nat.digitChar).reverse).asString := by
  show (Nat.toDigits 10 n).asString = _
  rw [Nat.toDigits, toDigitsCore_eq_digits (n+1) n [] hn (by omega)]
  simp

theorem digitChar_inj_lt : ∀ a < 10, ∀ b < 10,
    Nat.digitChar a = Nat.digitChar b → a = b := by decide

theorem map_digitChar_inj : ∀ l1 l2 : List Nat, (∀ d ∈ l1, d < 10) → (∀ d ∈ l2, d < 10) →
    l1.map Nat.digitChar = l2.map Nat.digitChar → l1 = l2 := by
  intro l1
  induction l1 with
  | nil =>
    intro l2 _ _ h
    cases l2 with
    | nil => rfl
    | cons b t2 => simp at h
  | cons a t ih =>
    intro l2 h1 h2 h
    cases l2 with
    | nil => simp at h
    | cons b t2 =>
      simp only [List.map_cons, List.cons.injEq] at h
      have hab := digitChar_inj_lt a (h1 a (by simp)) b (h2 b (by simp)) h.1
      have := ih t2 (fun d hd => h1 d (by simp [hd])) (fun d hd => h2 d (by simp [hd])) h.2
      simp [hab, this]

theorem asString_inj {l1 l2 : List Char} (h : l1.asString = l2.asString) :
    l1 = l2 := by
  have := congrArg String.data h
  simpa [List.asString] using this

/-- `str` on natural numbers is injective, so per-execution path components
never collide. -/
theorem Nat_repr_injective : ∀ m n : Nat, Nat.repr m = Nat.repr n → m = n := by
  have key : ∀ n : Nat, 0 < n → Nat.repr n = Nat.repr 0 → False := by
    intro n hn h
    rw [repr_eq_digits n hn, (rfl : Nat.repr 0 = ['0'].asString)] at h
    have hd := asString_inj h
    have hmap : (Nat.digits 10 n).map Nat.digitChar = ['0'] := by
      have := congrArg List.reverse hd
      simpa using this
    obtain ⟨d, hd1⟩ : ∃ d, Nat.digits 10 n = [d] := by
      rcases hdig : Nat.digits 10 n with _ | ⟨d, t⟩
      · rw [hdig] at hmap; simp at hmap
      · rw [hdig] at hmap
        simp only [List.map_cons, List.cons.injEq] at hmap
        rcases t with _ | ⟨d2, t2⟩
        · exact ⟨d, rfl⟩
        · simp at hmap
    have hdlt : d < 10 := Nat.digits_lt_base (by norm_num) (by rw [hd1]; simp)
    rw [hd1] at hmap
    simp only [List.map_cons, List.map_nil, List.cons.injEq] at hmap
    have hd0 : d = 0 := digitChar_inj_lt d hdlt 0 (by norm_num) (by simpa using hmap.1)
    have hofd := Nat.ofDigits_digits 10 n
    rw [hd1, hd0] at hofd
    simp [Nat.ofDigits] at hofd
    omega
  intro m n h
  rcases Nat.eq_zero_or_pos m with hm | hm <;> rcases Nat.eq_zero_or_pos n with hn | hn
  · omega
  · exact absurd (by rw [← h, hm]) (fun hh => key n hn hh)
  · exact absurd (by rw [h, hn]) (fun hh => key m hm hh)
  · rw [repr_eq_digits m hm, repr_eq_digits n hn] at h
    have hd := asString_inj h
    have hd2 := congrArg List.reverse hd
    simp only [List.reverse_reverse] at hd2
    have hdig := map_digitChar_inj _ _ (fun d hd => Nat.digits_lt_base (by norm_num) hd)
      (fun d hd => Nat.digits_lt_base (by norm_num) hd) hd2
    have h1 := Nat.ofDigits_digits 10 m
    have h2 := Nat.ofDigits_digits 10 n
    rw [hdig] at h1
    omega

/-! ## Lemmas about the placeholder encoder -/

namespace placeholder

theorem encodeOps_append (ops : List PlaceholderOperator) (op : PlaceholderOperator)
    (e : PlaceholderExpression) :
    encodeOps (ops ++ [op]) e = opEncode op (encodeOps ops e) := by
  induction ops generalizing e with
  | nil => simp [encodeOps]
  | cons a t ih => simp [encodeOps, ih]

theorem concatCombine_of_not_concat {e : PlaceholderExpression}
    (h : e.isConcat = false) (o : PlaceholderExpression) :
    concatCombine e o = .concat_op [e, o] := by
  cases e <;> simp_all [PlaceholderExpression.isConcat, concatCombine]

mutual

theorem encodeOpsS_eq : ∀ (ops : List PlaceholderOperator) (e : PlaceholderExpression),
    encodeOpsS ops e = (encodeOps ops e, ops)
  | [], e => by simp [encodeOpsS, encodeOps]
  | op :: rest, e => by
    simp [encodeOpsS, encodeOps, opEncodeS_eq op e, encodeOpsS_eq rest (opEncode op e)]

theorem opEncodeS_eq : ∀ (op : PlaceholderOperator) (e : PlaceholderExpression),
    opEncodeS op e = (opEncode op e, op)
  | .artifactUri s, e => by simp [opEncodeS, opEncode]
  | .artifactValue, e => by simp [opEncodeS, opEncode]
  | .index i, e => by simp [opEncodeS, opEncode]
  | .concat o, e => by simp [opEncodeS, opEncode, resolveOperandS_eq o]
  | .proto s, e => by simp [opEncodeS, opEncode]

theorem resolveOperandS_eq : ∀ (o : ConcatOperand),
    resolveOperandS o = (resolveOperand o, o)
  | .str s => by simp [resolveOperandS, resolveOperand]
  | .ph p => by simp [resolveOperandS, resolveOperand, encodeS_eq p]

theorem encodeS_eq : ∀ (p : Placeholder),
    Placeholder.encodeS p = (Placeholder.encode p, p)
  | .mk t k ops => by
    simp [Placeholder.encodeS, Placeholder.encode, encodeOpsS_eq ops (.placeholder t k)]

end

end placeholder

/-! ## Lemmas about the output resolver and the storage model -/

namespace outputs_utils

theorem dirname_pjoin_value (d : String) :
    dirname (pjoin d _VALUE_ARTIFACT_FILE_NAME) = d := by
  apply String.ext
  show ((((d ++ "/" ++ "value")).data.reverse.dropWhile
    (fun c => c ≠ '/')).tail).reverse = d.data
  have hdata : (d ++ "/" ++ "value").data = d.data ++ ['/', 'v', 'a', 'l', 'u', 'e'] := by
    have h1 : (d ++ "/" ++ "value").data = (d ++ "/").data ++ "value".data :=
      String.data_append _ _
    have h2 : (d ++ "/").data = d.data ++ "/".data := String.data_append _ _
    rw [h1, h2]
    simp
  rw [hdata, List.reverse_append]
  have hrev : (['/', 'v', 'a', 'l', 'u', 'e'] : List Char).reverse
      = ['e', 'u', 'l', 'a', 'v', '/'] := rfl
  rw [hrev]
  show (List.dropWhile (fun c => decide (c ≠ '/'))
    (['e', 'u', 'l', 'a', 'v', '/'] ++ d.data.reverse)).tail.reverse = d.data
  rw [show (['e', 'u', 'l', 'a', 'v', '/'] : List Char) ++ d.data.reverse
      = 'e' :: 'u' :: 'l' :: 'a' :: 'v' :: '/' :: d.data.reverse by simp]
  rw [List.dropWhile_cons_of_pos (by decide), List.dropWhile_cons_of_pos (by decide),
      List.dropWhile_cons_of_pos (by decide), List.dropWhile_cons_of_pos (by decide),
      List.dropWhile_cons_of_pos (by decide), List.dropWhile_cons_of_neg (by decide)]
  simp

theorem pjoin_right_inj {a b c : String} (h : pjoin a b = pjoin a c) : b = c :=
  string_append_cancel_left (a := a ++ "/") h

theorem pjoin_left_inj {a b c : String} (h : pjoin a c = pjoin b c) : a = b :=
  string_append_cancel_right (string_append_cancel_right (c := c) h)

theorem applyOps_append (fs : FileState) (l1 l2 : List FileOp) :
    fs.applyOps (l1 ++ l2) = (fs.applyOps l1).applyOps l2 := by
  simp [FileState.applyOps, List.foldl_append]

theorem mem_dirs_applyOp {fs : FileState} {p : String} (op : FileOp)
    (h : p ∈ fs.dirs) : p ∈ (fs.applyOp op).dirs := by
  cases op with
  | makedirs q => simp only [FileState.applyOp]; split <;> simp [h]
  | createEmptyFile q => simpa [FileState.applyOp] using h

theorem mem_files_applyOp {fs : FileState} {p : String} (op : FileOp)
    (h : p ∈ fs.files) : p ∈ (fs.applyOp op).files := by
  cases op with
  | makedirs q => simpa [FileState.applyOp] using h
  | createEmptyFile q => simp only [FileState.applyOp]; split <;> simp [h]

theorem mem_dirs_applyOps {fs : FileState} {p : String} (ops : List FileOp)
    (h : p ∈ fs.dirs) : p ∈ (fs.applyOps ops).dirs := by
  induction ops generalizing fs with
  | nil => simpa [FileState.applyOps] using h
  | cons op rest ih =>
    show p ∈ (FileState.applyOps (fs.applyOp op) rest).dirs
    exact ih (mem_dirs_applyOp op h)

theorem mem_files_applyOps {fs : FileState} {p : String} (ops : List FileOp)
    (h : p ∈ fs.files) : p ∈ (fs.applyOps ops).files := by
  induction ops generalizing fs with
  | nil => simpa [FileState.applyOps] using h
  | cons op rest ih =>
    show p ∈ (FileState.applyOps (fs.applyOp op) rest).files
    exact ih (mem_files_applyOp op h)

theorem mem_dirs_makedirs (fs : FileState) (p : String) :
    p ∈ (fs.applyOp (.makedirs p)).dirs := by
  simp only [FileState.applyOp]; split <;> simp_all

theorem mem_files_createEmptyFile (fs : FileState) (p : String) :
    p ∈ (fs.applyOp (.createEmptyFile p)).files := by
  simp only [FileState.applyOp]; split <;> simp_all

/-- Effect of the storage operations `make_output_dirs` issues for one
artifact. -/
theorem mem_after_artifactMakeOps (fs : FileState) (a : Artifact) :
    (a.artifact_type.is_value_artifact = true →
      dirname a.uri ∈ (fs.applyOps (artifactMakeOps a)).dirs ∧
      a.uri ∈ (fs.applyOps (artifactMakeOps a)).files) ∧
    (a.artifact_type.is_value_artifact = false →
      a.uri ∈ (fs.applyOps (artifactMakeOps a)).dirs) := by
  constructor
  · intro h
    simp only [artifactMakeOps, h, if_pos, FileState.applyOps, List.foldl_cons,
      List.foldl_nil]
    exact ⟨mem_dirs_applyOp _ (mem_dirs_makedirs fs _),
      mem_files_createEmptyFile _ _⟩
  · intro h
    simp only [artifactMakeOps, h, Bool.false_eq_true, if_false,
      FileState.applyOps, List.foldl_cons, List.foldl_nil]
    exact mem_dirs_makedirs fs _

/-- The storage effect of `make_output_dirs` on any artifact contained in the
output mapping. -/
theorem make_output_dirs_effect (output_dict : List (String × List Artifact))
    (fs : FileState) (k : String) (arts : List Artifact) (a : Artifact)
    (h1 : (k, arts) ∈ output_dict) (h2 : a ∈ arts) :
    (a.artifact_type.is_value_artifact = true →
      dirname a.uri ∈ (make_output_dirs output_dict fs).dirs ∧
      a.uri ∈ (make_output_dirs output_dict fs).files) ∧
    (a.artifact_type.is_value_artifact = false →
      a.uri ∈ (make_output_dirs output_dict fs).dirs) := by
  obtain ⟨s, t, rfl⟩ := List.append_of_mem h1
  obtain ⟨s2, t2, rfl⟩ := List.append_of_mem h2
  unfold make_output_dirs make_output_dirs_ops
  simp only [List.map_append, List.map_cons, List.flatten_append, List.flatten_cons]
  generalize (s.map fun kv => (kv.2.map artifactMakeOps).flatten).flatten = A
  generalize hB : (s2.map artifactMakeOps).flatten = B
  generalize hC : (t2.map artifactMakeOps).flatten = C
  generalize hD : (t.map fun kv => (kv.2.map artifactMakeOps).flatten).flatten = D
  rw [show A ++ (B ++ (artifactMakeOps a ++ C) ++ D)
      = ((A ++ B) ++ artifactMakeOps a) ++ (C ++ D) by simp]
  rw [applyOps_append, applyOps_append]
  have hbase := mem_after_artifactMakeOps (FileState.applyOps fs (A ++ B)) a
  rw [← applyOps_append] at hbase
  constructor
  · intro h
    exact ⟨mem_dirs_applyOps _ (mem_dirs_applyOps _ ((hbase.1 h).1)),
      mem_files_applyOps _ (mem_files_applyOps _ ((hbase.1 h).2))⟩
  · intro h
    exact mem_dirs_applyOps _ (mem_dirs_applyOps _ (hbase.2 h))

/-- The descriptor `generate_output_artifacts` produces for a declared output
`(k, ty)`. -/
theorem generate_mem (r : OutputsResolver) (e : Nat) (k : String)
    (ty : ArtifactType) (h : (k, ty) ∈ r.node_outputs) :
    (k, [{ artifact_type := ty,
           uri := if ty.is_value_artifact
                  then pjoin (pjoin (pjoin r.node_dir k) (toString e))
                    _VALUE_ARTIFACT_FILE_NAME
                  else pjoin (pjoin r.node_dir k) (toString e),
           name := r.pipeline_id ++ ":" ++ r.pipeline_run_id ++ ":" ++
             r.node_id ++ ":" ++ k ++ ":" ++ toString (0 : Nat) }])
      ∈ r.generate_output_artifacts e := by
  unfold OutputsResolver.generate_output_artifacts
  refine List.mem_map.mpr ⟨(k, ty), h, ?_⟩
  by_cases hv : ty.is_value_artifact <;> simp [hv]

end outputs_utils

/-! ## Lemmas about the compiler model -/

namespace compiler

theorem checkBinding_ok_of (seen : List AuthoredNode) (nid : String)
    (b : ChannelBinding) (h : bindingOk seen b = true) :
    checkBinding seen nid b = .ok () := by
  cases b with
  | external s => rfl
  | producer pid key =>
    simp only [bindingOk] at h
    cases hf : seen.find? (fun m => m.id == pid) with
    | none => rw [hf] at h; simp at h
    | some m =>
      rw [hf] at h
      simp only at h
      simp only [checkBinding, hf]
      rw [if_pos h]

theorem checkBindings_ok_of (seen : List AuthoredNode) (nid : String) :
    ∀ bs : List ChannelBinding, bs.all (bindingOk seen) = true →
    checkBindings seen nid bs = .ok ()
  | [], _ => rfl
  | b :: rest, h => by
    simp only [List.all_cons, Bool.and_eq_true] at h
    have h1 := checkBinding_ok_of seen nid b h.1
    have h2 := checkBindings_ok_of seen nid rest h.2
    simp [checkBindings, h1, h2, bind, Except.bind]

theorem compileExecProperty_ok_of (nid : String)
    (kv : String × ExecPropertyValue)
    (h : execPropertySupported kv.2 = true) :
    ∃ c, compileExecProperty nid kv = .ok c := by
  cases hv : kv.2 with
  | literal v =>
    exact ⟨(kv.1, .literal v), by simp [compileExecProperty, hv]⟩
  | runtimeParameter pname =>
    exact ⟨(kv.1, .runtimeParameter pname), by simp [compileExecProperty, hv]⟩
  | placeholderExpr e =>
    exact ⟨(kv.1, .placeholderExpr e), by simp [compileExecProperty, hv]⟩
  | unsupported d =>
    rw [hv] at h
    simp [execPropertySupported] at h

theorem compileExecProperties_ok_of (nid : String) :
    ∀ l : List (String × ExecPropertyValue),
    (l.all fun kv => execPropertySupported kv.2) = true →
    ∃ eps, compileExecProperties nid l = .ok eps
  | [], _ => ⟨[], rfl⟩
  | kv :: rest, h => by
    simp only [List.all_cons, Bool.and_eq_true] at h
    obtain ⟨c, hc⟩ := compileExecProperty_ok_of nid kv h.1
    obtain ⟨eps, heps⟩ := compileExecProperties_ok_of nid rest h.2
    exact ⟨c :: eps,
      by simp [compileExecProperties, hc, heps, bind, Except.bind]⟩

theorem compileNodes_ok : ∀ (rest seen : List AuthoredNode),
    nodesWellFormed seen rest = true →
    ∃ ns, compileNodes seen rest = .ok ns ∧
      ns.map CompiledNode.id = rest.map AuthoredNode.id
  | [], _, _ => ⟨[], rfl, rfl⟩
  | n :: rest, seen, h => by
    simp only [nodesWellFormed, Bool.and_eq_true] at h
    obtain ⟨⟨hb, he⟩, htail⟩ := h
    obtain ⟨ns, hns, hids⟩ := compileNodes_ok rest (seen ++ [n]) htail
    have hcb := checkBindings_ok_of seen n.id n.input_bindings hb
    obtain ⟨eps, heps⟩ := compileExecProperties_ok_of n.id n.exec_properties he
    have hcn : compileNode seen n = .ok
        { id := n.id, kind := n.kind,
          upstream_nodes := n.input_bindings.filterMap bindingUpstream,
          exec_properties := eps } := by
      simp [compileNode, hcb, heps, bind, Except.bind]
    refine ⟨{ id := n.id, kind := n.kind,
              upstream_nodes := n.input_bindings.filterMap bindingUpstream,
              exec_properties := eps }
        :: ns, ?_, ?_⟩
    · simp [compileNodes, hcn, hns, bind, Except.bind]
    · simp [hids]

theorem checkBinding_ok_imp (seen : List AuthoredNode) (nid : String)
    (b : ChannelBinding) (h : checkBinding seen nid b = .ok ()) :
    producerFound seen b = true := by
  cases b with
  | external s => rfl
  | producer pid key =>
    simp only [producerFound]
    cases hf : seen.find? (fun m => m.id == pid) with
    | none => simp [checkBinding, hf] at h
    | some m => simp [hf]

theorem checkBindings_ok_imp (seen : List AuthoredNode) (nid : String) :
    ∀ bs : List ChannelBinding, checkBindings seen nid bs = .ok () →
    bs.all (producerFound seen) = true
  | [], _ => rfl
  | b :: rest, h => by
    cases hcb : checkBinding seen nid b with
    | error e => simp [checkBindings, hcb, bind, Except.bind] at h
    | ok u =>
      cases u
      have hrest : checkBindings seen nid rest = .ok () := by
        simpa [checkBindings, hcb, bind, Except.bind] using h
      have hh := checkBinding_ok_imp seen nid b hcb
      have ht := checkBindings_ok_imp seen nid rest hrest
      rw [List.all_cons, hh, ht]
      rfl

theorem compileNodes_ok_imp : ∀ (rest seen : List AuthoredNode)
    (ns : List CompiledNode), compileNodes seen rest = .ok ns →
    producersDeclaredEarlier seen rest = true
  | [], _, _, _ => rfl
  | n :: rest, seen, ns, h => by
    cases hcn : compileNode seen n with
    | error e => simp [compileNodes, hcn, bind, Except.bind] at h
    | ok cn =>
      cases hrest : compileNodes (seen ++ [n]) rest with
      | error e => simp [compileNodes, hcn, hrest, bind, Except.bind] at h
      | ok ns2 =>
        have hchk : checkBindings seen n.id n.input_bindings = .ok () := by
          cases hc : checkBindings seen n.id n.input_bindings with
          | error e => simp [compileNode, hc, bind, Except.bind] at hcn
          | ok u => cases u; rfl
        simp [producersDeclaredEarlier, checkBindings_ok_imp seen n.id _ hchk,
          compileNodes_ok_imp rest (seen ++ [n]) ns2 hrest]

/-- The third `CompilationError` cause of the modelled contract is reachable:
an execution-property value that is neither a supported scalar literal nor a
runtime parameter nor a placeholder expression fails the whole compilation,
naming the offending node. -/
theorem compile_rejects_unsupported_exec_property :
    compile ⟨"pipe", "root", true, [],
        [⟨"A", .ordinary, [], [],
          [("raw", .unsupported "opaque runtime object")]⟩]⟩
      = .error ⟨"A", "unsupported execution property value type for " ++ "raw"⟩ :=
  rfl

end compiler

/-! ## The claims -/

open placeholder outputs_utils compiler

/-- Claim C1: for every placeholder handle, however it was built, `encode()`
is side-effect-free — the state-accounting encoder returns the operator list
and every nested sub-placeholder unchanged — and encoding the post-state
again yields a structurally identical expression tree. -/
theorem C1_encode_idempotent (p : Placeholder) :
    (p.encodeS).2 = p ∧ ((p.encodeS).2.encodeS).1 = (p.encodeS).1 := by
  simp [encodeS_eq]

/-- Claim C2 (counterexample): for `p = exec_property("k") + "x"` — whose
prior encoding is already a concat node — encoding `p + "a" + "b"` appends to
the existing operand list instead of producing the operand list
`[encoding of p, "a", "b"]` the claim predicts for every placeholder. -/
theorem C2_counterexample :
    ¬ (((((exec_property "k").add (.str "x")).add (.str "a")).add (.str "b")).encode
        = .concat_op [((exec_property "k").add (.str "x")).encode,
            .value "a", .value "b"]) := by
  intro h
  simp [exec_property, Placeholder.add, Placeholder.encode, encodeOps, opEncode,
    resolveOperand, concatCombine] at h

/-- Claim C2 (amended): two concatenations applied in sequence and then
`encode()` always produce one flat `concat_op`, never a nested
concat-of-concat: when the prior encoding of `p` is not itself a concat node
the operand list is exactly `[prior encoding of p, a, b]` in attachment
order; when it is already `concat_op es`, the two operands are appended to
`es`. -/
theorem C2_concat_flattens (p : Placeholder) (a b : ConcatOperand) :
    ((p.add a).add b).encode =
      match p.encode with
      | .concat_op es => .concat_op (es ++ [resolveOperand a, resolveOperand b])
      | e0 => .concat_op [e0, resolveOperand a, resolveOperand b] := by
  obtain ⟨t, k, ops⟩ := p
  simp only [Placeholder.add, Placeholder.encode, encodeOps_append]
  cases hE : encodeOps ops (.placeholder t k) <;> simp [opEncode, concatCombine]

/-- Claim C3: `exec_property("cfg").num_layers.count` encodes to a single
`proto_op` with path `"num_layers.count"` wrapping the `EXEC_PROPERTY` leaf
with key `"cfg"`; in general a further attribute access on a placeholder
whose last operator is a `_ProtoOperator` extends that operator's dot-joined
path instead of nesting a second path operator. -/
theorem C3_proto_path_accumulates :
    (((exec_property "cfg").getattr "num_layers").getattr "count").encode
      = .proto_op (.placeholder .EXEC_PROPERTY "cfg") "num_layers.count" ∧
    ∀ (t : PlaceholderType) (k : String) (ops : List PlaceholderOperator)
      (path f : String),
      Placeholder.getattr (.mk t k (ops ++ [.proto path])) f
        = .mk t k (ops ++ [.proto (path ++ "." ++ f)]) := by
  constructor
  · simp [exec_property, Placeholder.getattr, Placeholder.encode, encodeOps,
      opEncode]
  · intro t k ops path f
    simp [Placeholder.getattr, List.getLast?_concat, List.dropLast_concat]

/-- Claim C10: `__getattr__` extends the existing `_ProtoOperator` only when
it is the most recently attached operator; when the operator list ends in
anything else (an index, a concat, …), the access appends a fresh
`_ProtoOperator` whose encoding wraps the entire existing expression. -/
theorem C10_proto_extension_locality (t : PlaceholderType) (k : String)
    (ops : List PlaceholderOperator) (f : String) :
    (∀ path, ops.getLast? = some (.proto path) →
      Placeholder.getattr (.mk t k ops) f
        = .mk t k (ops.dropLast ++ [.proto (path ++ "." ++ f)])) ∧
    ((∀ path, ops.getLast? ≠ some (.proto path)) →
      Placeholder.getattr (.mk t k ops) f = .mk t k (ops ++ [.proto f]) ∧
      (Placeholder.getattr (.mk t k ops) f).encode
        = .proto_op ((Placeholder.mk t k ops).encode) f) := by
  constructor
  · intro path h
    simp [Placeholder.getattr, h]
  · intro h
    have hg : Placeholder.getattr (.mk t k ops) f = .mk t k (ops ++ [.proto f]) := by
      simp only [Placeholder.getattr]
    rw [hg]
    refine ⟨rfl, ?_⟩
    simp [Placeholder.encode, encodeOps_append, opEncode]

/-- Witness for claim C10 at a concrete input: with an index operator
attached after the first field access, the next access wraps the whole
expression in a fresh `proto_op`. -/
theorem C10_witness :
    Placeholder.getattr (.mk .EXEC_PROPERTY "cfg" [.proto "a", .index 0]) "b"
        = .mk .EXEC_PROPERTY "cfg" ([.proto "a", .index 0] ++ [.proto "b"]) ∧
    (Placeholder.getattr (.mk .EXEC_PROPERTY "cfg" [.proto "a", .index 0]) "b").encode
        = .proto_op ((Placeholder.mk .EXEC_PROPERTY "cfg"
            [.proto "a", .index 0]).encode) "b" :=
  (C10_proto_extension_locality .EXEC_PROPERTY "cfg" [.proto "a", .index 0] "b").2
    (by intro path; simp)

/-- Claim C5: `generate_output_artifacts` performs no storage operation and
leaves the resolver's own state unchanged: the effect-accounting variant
reports an empty operation trace — whose application is the identity on every
storage state — and returns the resolver exactly as received. -/
theorem C5_generate_no_storage_ops (r : OutputsResolver) (e : Nat) :
    (r.generate_output_artifactsS e).2.1 = [] ∧
    (r.generate_output_artifactsS e).2.2 = r ∧
    ∀ fs : FileState, fs.applyOps (r.generate_output_artifactsS e).2.1 = fs :=
  ⟨rfl, rfl, fun _ => rfl⟩

/-- Claim C6: `get_stateful_working_directory` called twice returns the same
path both times, the directory exists after either call, and the path is
determined by the pipeline root, node id and run id alone (the method takes no
execution id). -/
theorem C6_stateful_working_directory (r : OutputsResolver) (fs : FileState) :
    (r.get_stateful_working_directory fs).1
      = (r.get_stateful_working_directory
          (r.get_stateful_working_directory fs).2).1 ∧
    (r.get_stateful_working_directory fs).1
      ∈ (r.get_stateful_working_directory fs).2.dirs ∧
    (r.get_stateful_working_directory (r.get_stateful_working_directory fs).2).1
      ∈ (r.get_stateful_working_directory
          (r.get_stateful_working_directory fs).2).2.dirs ∧
    ∀ r2 : OutputsResolver, r.pipeline_root = r2.pipeline_root →
      r.node_id = r2.node_id → r.pipeline_run_id = r2.pipeline_run_id →
      (r.get_stateful_working_directory fs).1
        = (r2.get_stateful_working_directory fs).1 := by
  refine ⟨rfl, mem_dirs_makedirs fs _, mem_dirs_makedirs _ _, ?_⟩
  intro r2 h1 h2 h3
  simp [OutputsResolver.get_stateful_working_directory, OutputsResolver.node_dir,
    h1, h2, h3]

/-- Witness for claim C6 at concrete inputs: two resolvers agreeing on root,
node and run id (but not on pipeline id) yield the same stateful working
directory. -/
theorem C6_witness :
    (OutputsResolver.mk "N" [] "p" "root" "r1").pipeline_root
      = (OutputsResolver.mk "N" [] "q" "root" "r1").pipeline_root ∧
    ((OutputsResolver.mk "N" [] "p" "root" "r1").get_stateful_working_directory
        ⟨[], []⟩).1
      = ((OutputsResolver.mk "N" [] "q" "root" "r1").get_stateful_working_directory
        ⟨[], []⟩).1 :=
  ⟨rfl, (C6_stateful_working_directory _ _).2.2.2 _ rfl rfl rfl⟩

/-- Claim C4 (counterexample): for a value-typed output, the returned uri is
not `join(pipelineRoot, nodeId, outputKey, executionId)` — the fixed file
name `value` is appended — so the claimed uri formula does not hold for every
declared output key. -/
theorem C4_counterexample :
    OutputsResolver.generate_output_artifacts
        ⟨"N", [("out", ⟨true⟩)], "p", "root", "r1"⟩ 7
      = [("out", [{ artifact_type := ⟨true⟩, uri := "root/N/out/7/value",
                    name := "p:r1:N:out:0" }])] ∧
    "root/N/out/7/value" ≠
      pjoin (pjoin (OutputsResolver.node_dir
        ⟨"N", [("out", ⟨true⟩)], "p", "root", "r1"⟩) "out") (toString (7 : Nat)) :=
  ⟨by decide, by decide⟩

/-- Claim C4 (amended): for every declared output key the descriptor name is
the colon-joined `pipelineId:runId:nodeId:outputKey:0`, identical across
execution ids; the uri is `join(nodeDir, outputKey, executionId)` for
non-value outputs and additionally carries the fixed `value` file name for
value-typed outputs, and in either case differs whenever the execution id
differs; concretely, node `"Trainer"`, key `"model"`, execution id `7`,
pipeline `"p"`, run `"r1"` yield name `"p:r1:Trainer:model:0"` and a uri
ending in `Trainer/model/7`. -/
theorem C4_artifact_name_and_uri (r : OutputsResolver) (e1 e2 : Nat)
    (k : String) (ty : ArtifactType) (hmem : (k, ty) ∈ r.node_outputs)
    (hne : e1 ≠ e2) :
    ((k, [{ artifact_type := ty,
            uri := if ty.is_value_artifact
                   then pjoin (pjoin (pjoin r.node_dir k) (toString e1))
                     _VALUE_ARTIFACT_FILE_NAME
                   else pjoin (pjoin r.node_dir k) (toString e1),
            name := r.pipeline_id ++ ":" ++ r.pipeline_run_id ++ ":" ++
              r.node_id ++ ":" ++ k ++ ":" ++ toString (0 : Nat) }])
        ∈ r.generate_output_artifacts e1) ∧
    ((k, [{ artifact_type := ty,
            uri := if ty.is_value_artifact
                   then pjoin (pjoin (pjoin r.node_dir k) (toString e2))
                     _VALUE_ARTIFACT_FILE_NAME
                   else pjoin (pjoin r.node_dir k) (toString e2),
            name := r.pipeline_id ++ ":" ++ r.pipeline_run_id ++ ":" ++
              r.node_id ++ ":" ++ k ++ ":" ++ toString (0 : Nat) }])
        ∈ r.generate_output_artifacts e2) ∧
    ((if ty.is_value_artifact
      then pjoin (pjoin (pjoin r.node_dir k) (toString e1))
        _VALUE_ARTIFACT_FILE_NAME
      else pjoin (pjoin r.node_dir k) (toString e1)) ≠
     (if ty.is_value_artifact
      then pjoin (pjoin (pjoin r.node_dir k) (toString e2))
        _VALUE_ARTIFACT_FILE_NAME
      else pjoin (pjoin r.node_dir k) (toString e2))) ∧
    (OutputsResolver.generate_output_artifacts
        ⟨"Trainer", [("model", ⟨false⟩)], "p", "root", "r1"⟩ 7
      = [("model", [{ artifact_type := ⟨false⟩, uri := "root/Trainer/model/7",
                      name := "p:r1:Trainer:model:0" }])]) ∧
    "root/Trainer/model/7" = "root/" ++ "Trainer/model/7" := by
  refine ⟨generate_mem r e1 k ty hmem, generate_mem r e2 k ty hmem, ?_,
    by decide, by decide⟩
  have hrepr : toString e1 ≠ toString e2 :=
    fun hh => hne (Nat_repr_injective e1 e2 hh)
  cases hv : ty.is_value_artifact with
  | false =>
    simp only [hv, Bool.false_eq_true, if_false]
    intro h
    exact hrepr (pjoin_right_inj h)
  | true =>
    simp only [hv, if_true]
    intro h
    exact hrepr (pjoin_right_inj (pjoin_left_inj h))

/-- Witness for claim C4 at concrete inputs: a value-typed output under
execution ids 7 and 8 receives distinct uris. -/
theorem C4_witness :
    (("out", ArtifactType.mk true)
      ∈ (OutputsResolver.mk "N" [("out", ⟨true⟩)] "p" "root" "r1").node_outputs) ∧
    ((7 : Nat) ≠ 8) ∧
    ((if (ArtifactType.mk true).is_value_artifact
      then pjoin (pjoin (pjoin (OutputsResolver.mk "N" [("out", ⟨true⟩)] "p"
        "root" "r1").node_dir "out") (toString (7 : Nat))) _VALUE_ARTIFACT_FILE_NAME
      else pjoin (pjoin (OutputsResolver.mk "N" [("out", ⟨true⟩)] "p"
        "root" "r1").node_dir "out") (toString (7 : Nat))) ≠
     (if (ArtifactType.mk true).is_value_artifact
      then pjoin (pjoin (pjoin (OutputsResolver.mk "N" [("out", ⟨true⟩)] "p"
        "root" "r1").node_dir "out") (toString (8 : Nat))) _VALUE_ARTIFACT_FILE_NAME
      else pjoin (pjoin (OutputsResolver.mk "N" [("out", ⟨true⟩)] "p"
        "root" "r1").node_dir "out") (toString (8 : Nat)))) :=
  ⟨by decide, by decide,
   (C4_artifact_name_and_uri _ 7 8 "out" ⟨true⟩ (by decide) (by decide)).2.2.1⟩

/-- Claim C7: a value-typed output's uri is the per-execution directory plus
the fixed file name `value` (whose dirname is exactly that directory), and
`make_output_dirs` creates, for every value artifact of the mapping, the
parent directory and an empty backing file at the uri, while a non-value
artifact gets its uri created as a directory. -/
theorem C7_value_artifact_files (r : OutputsResolver) (e : Nat) (k : String)
    (ty : ArtifactType) (hmem : (k, ty) ∈ r.node_outputs) :
    (ty.is_value_artifact = true →
      ((k, [{ artifact_type := ty,
              uri := pjoin (pjoin (pjoin r.node_dir k) (toString e))
                _VALUE_ARTIFACT_FILE_NAME,
              name := r.pipeline_id ++ ":" ++ r.pipeline_run_id ++ ":" ++
                r.node_id ++ ":" ++ k ++ ":" ++ toString (0 : Nat) }])
          ∈ r.generate_output_artifacts e) ∧
      dirname (pjoin (pjoin (pjoin r.node_dir k) (toString e))
          _VALUE_ARTIFACT_FILE_NAME)
        = pjoin (pjoin r.node_dir k) (toString e)) ∧
    (ty.is_value_artifact = false →
      (k, [{ artifact_type := ty,
             uri := pjoin (pjoin r.node_dir k) (toString e),
             name := r.pipeline_id ++ ":" ++ r.pipeline_run_id ++ ":" ++
               r.node_id ++ ":" ++ k ++ ":" ++ toString (0 : Nat) }])
        ∈ r.generate_output_artifacts e) ∧
    ∀ (output_dict : List (String × List Artifact)) (fs : FileState)
      (k2 : String) (arts : List Artifact) (a : Artifact),
      (k2, arts) ∈ output_dict → a ∈ arts →
      (a.artifact_type.is_value_artifact = true →
        artifactMakeOps a = [.makedirs (dirname a.uri), .createEmptyFile a.uri] ∧
        dirname a.uri ∈ (make_output_dirs output_dict fs).dirs ∧
        a.uri ∈ (make_output_dirs output_dict fs).files) ∧
      (a.artifact_type.is_value_artifact = false →
        artifactMakeOps a = [.makedirs a.uri] ∧
        a.uri ∈ (make_output_dirs output_dict fs).dirs) := by
  refine ⟨?_, ?_, ?_⟩
  · intro hv
    exact ⟨by simpa [hv] using generate_mem r e k ty hmem, dirname_pjoin_value _⟩
  · intro hv
    simpa [hv] using generate_mem r e k ty hmem
  · intro od fs k2 arts a h1 h2
    have heff := make_output_dirs_effect od fs k2 arts a h1 h2
    exact ⟨fun hv => ⟨by simp [artifactMakeOps, hv], (heff.1 hv).1, (heff.1 hv).2⟩,
           fun hv => ⟨by simp [artifactMakeOps, hv], heff.2 hv⟩⟩

/-- Witness for claim C7 at concrete inputs: the dirname of the value
artifact's uri is the per-execution directory. -/
theorem C7_witness :
    (("out", ArtifactType.mk true)
      ∈ (OutputsResolver.mk "N" [("out", ⟨true⟩)] "p" "root" "r1").node_outputs) ∧
    dirname (pjoin (pjoin (pjoin (OutputsResolver.mk "N" [("out", ⟨true⟩)] "p"
        "root" "r1").node_dir "out") (toString (7 : Nat)))
        _VALUE_ARTIFACT_FILE_NAME)
      = pjoin (pjoin (OutputsResolver.mk "N" [("out", ⟨true⟩)] "p"
        "root" "r1").node_dir "out") (toString (7 : Nat)) :=
  ⟨by decide, ((C7_value_artifact_files _ 7 "out" ⟨true⟩ (by decide)).1 rfl).2⟩

/-- Claim C8 (counterexample): a pipeline whose every producer is declared
earlier can still fail to compile — here node B references output key `"x"`
that producer A does not declare — so declared-earlier producers alone do not
guarantee success. -/
theorem C8_counterexample :
    producersDeclaredEarlier []
      [⟨"A", .ordinary, [], [], []⟩,
       ⟨"B", .ordinary, [.producer "A" "x"], [], []⟩]
      = true ∧
    compile ⟨"pipe", "root", true, [],
        [⟨"A", .ordinary, [], [], []⟩,
         ⟨"B", .ordinary, [.producer "A" "x"], [], []⟩]⟩
      = .error ⟨"B", "producer " ++ "A" ++ " does not declare output key " ++ "x"⟩ :=
  ⟨by decide, rfl⟩

/-- Claim C8 (amended): for every authored pipeline whose channel bindings
are acyclic, reference only producers declared earlier in the node list and
only output keys those producers declare, and whose execution-property values
are each a supported scalar literal, a runtime parameter or a placeholder
expression, `compile` succeeds and the compiled node list is in exactly the
authored order. -/
theorem C8_compile_preserves_order (p : AuthoredPipeline)
    (h : nodesWellFormed [] p.nodes = true) :
    (compile p).map (fun cp => cp.nodes.map CompiledNode.id)
      = .ok (p.nodes.map AuthoredNode.id) := by
  obtain ⟨ns, hns, hids⟩ := compileNodes_ok p.nodes [] h
  simp [compile, hns, Except.map, hids]

/-- Witness for claim C8 at a concrete input: a two-node pipeline `A → B`
with a declared output key and supported execution-property values compiles
with node order preserved. -/
theorem C8_witness :
    nodesWellFormed []
      [⟨"A", .ordinary, [], ["x"], [("steps", .literal (.intValue 2000))]⟩,
       ⟨"B", .ordinary, [.producer "A" "x"], [],
        [("module_file", .runtimeParameter "module_file")]⟩]
      = true ∧
    (compile ⟨"pipe", "root", true, [],
        [⟨"A", .ordinary, [], ["x"], [("steps", .literal (.intValue 2000))]⟩,
         ⟨"B", .ordinary, [.producer "A" "x"], [],
          [("module_file", .runtimeParameter "module_file")]⟩]⟩).map
        (fun cp => cp.nodes.map CompiledNode.id) = .ok ["A", "B"] :=
  ⟨by decide, by
    have := C8_compile_preserves_order ⟨"pipe", "root", true, [],
      [⟨"A", .ordinary, [], ["x"], [("steps", .literal (.intValue 2000))]⟩,
       ⟨"B", .ordinary, [.producer "A" "x"], [],
        [("module_file", .runtimeParameter "module_file")]⟩]⟩
      (by decide)
    simpa using this⟩

/-- Claim C9: a channel binding whose producer node is not declared in the
node list (or only declared later) makes `compile` fail with a
`CompilationError` — the result is never `ok`, so no pipeline, not even a
partial one, is returned. -/
theorem C9_undeclared_producer_fails (p : AuthoredPipeline)
    (h : producersDeclaredEarlier [] p.nodes = false) :
    (compile p).isOk = false := by
  cases hc : compileNodes [] p.nodes with
  | error e => simp [compile, hc, Except.isOk, Except.toBool]
  | ok ns =>
    have hpde := compileNodes_ok_imp p.nodes [] ns hc
    rw [hpde] at h
    exact Bool.noConfusion h

/-- Witness for claim C9 at a concrete input: a node consuming from the
undeclared producer `"A"` fails to compile. -/
theorem C9_witness :
    producersDeclaredEarlier []
      [⟨"B", .ordinary, [.producer "A" "x"], [], []⟩]
      = false ∧
    (compile ⟨"pipe", "root", true, [],
        [⟨"B", .ordinary, [.producer "A" "x"], [], []⟩]⟩).isOk = false :=
  ⟨by decide, C9_undeclared_producer_fails _ (by decide)⟩

end Tfx
